import Mathlib

/-
Verification of the alive-progress-ts live-rendering engine against its
natural-language specification.

The development shallowly embeds the relevant TypeScript sources:
  - src/utils/cells.ts        (Cell model: widths, padding, truncation, fixCells)
  - src/utils/timing.ts       (RateSmoother, Timer, ETACalculator)
  - src/core/calibration.ts   (calculateFps)
  - src/core/progress.ts      (formatNumber, renderFrame truncation, barFn,
                               text/title setters, finalize/Receipt)

JavaScript numbers are modelled as exact rationals (ℚ); the only
transcendental function used by the code, Math.log10 in calculateFps, is
modelled over the reals via Real.logb 10.  JavaScript null is modelled with
Option, and JavaScript truthiness tests on numbers/strings are expanded at
each use site (null and 0 are falsy, the empty string is falsy).
-/

namespace AliveProgress

/-! ### Cell model (src/utils/cells.ts) -/

/-- Embedding of the `Cell` interface: one grapheme cluster plus its display
width in terminal columns. -/
structure Cell where
  grapheme : String
  width : Nat
  deriving Repr, DecidableEq

/-- Embedding of `getCharWidth`.  The source takes a one-character string and
reads `codePointAt(0)`; here the character is a Lean `Char`, i.e. the code
point itself (the `undefined` branch for an empty string is unrepresentable).
The code-point range tests are copied from the source. -/
def getCharWidth (char : Char) : Nat :=
  let code := char.toNat
  if (code ≥ 0x4E00 && code ≤ 0x9FFF) ||
     (code ≥ 0x3400 && code ≤ 0x4DBF) ||
     (code ≥ 0x20000 && code ≤ 0x2A6DF) ||
     (code ≥ 0xF900 && code ≤ 0xFAFF) ||
     (code ≥ 0xFF00 && code ≤ 0xFFEF) ||
     (code ≥ 0x1F300 && code ≤ 0x1F9FF) ||
     (code ≥ 0x2600 && code ≤ 0x26FF) ||
     (code ≥ 0x2700 && code ≤ 0x27BF) ||
     (code ≥ 0x1F600 && code ≤ 0x1F64F) ||
     (code ≥ 0x1F680 && code ≤ 0x1F6FF) ||
     (code ≥ 0x1F1E0 && code ≤ 0x1F1FF) then
    2
  else
    1

/-- Embedding of `getCellsWidth`: `cells.reduce((sum, cell) => sum + cell.width, 0)`. -/
def getCellsWidth (cells : List Cell) : Nat :=
  cells.foldl (fun sum cell => sum + cell.width) 0

/-- Alignment argument of `padCells`. -/
inductive Align where
  | left
  | right
  | center
  deriving Repr, DecidableEq

/-- Embedding of `padCells`.  The fill character is a `Char`; the source
builds `fillCell = { grapheme: fillChar, width: getCharWidth(fillChar) }` and
`fillCount = Math.ceil(paddingNeeded / fillCell.width)`, which for positive
naturals is `(paddingNeeded + w - 1) / w`.  The source defaults are
`fillChar = ' '` and `align = left`; defaults are passed explicitly here. -/
def padCells (cells : List Cell) (targetWidth : Nat) (fillChar : Char)
    (align : Align) : List Cell :=
  let currentWidth := getCellsWidth cells
  if currentWidth ≥ targetWidth then
    cells
  else
    let paddingNeeded := targetWidth - currentWidth
    let fillCell : Cell := { grapheme := fillChar.toString, width := getCharWidth fillChar }
    let fillCount := (paddingNeeded + fillCell.width - 1) / fillCell.width
    let padding := List.replicate fillCount fillCell
    match align with
    | Align.right => padding ++ cells
    | Align.center =>
      let leftCount := fillCount / 2
      let rightCount := fillCount - leftCount
      List.replicate leftCount fillCell ++ cells ++ List.replicate rightCount fillCell
    | Align.left => cells ++ padding

/-- Loop body of `truncateCells`: walks the cells keeping a running width,
stopping as soon as adding the next cell would exceed `maxWidth`. -/
def truncateCellsAux (maxWidth : Nat) : List Cell → Nat → List Cell
  | [], _ => []
  | cell :: rest, width =>
    if width + cell.width > maxWidth then []
    else cell :: truncateCellsAux maxWidth rest (width + cell.width)

/-- Embedding of `truncateCells`. -/
def truncateCells (cells : List Cell) (maxWidth : Nat) : List Cell :=
  truncateCellsAux maxWidth cells 0

/-- Embedding of `fixCells` (the spec's `fit`); `padCells` is called with the
default `left` alignment, as in the source. -/
def fixCells (cells : List Cell) (targetWidth : Nat) (fillChar : Char) : List Cell :=
  let currentWidth := getCellsWidth cells
  if currentWidth = targetWidth then cells
  else if currentWidth > targetWidth then truncateCells cells targetWidth
  else padCells cells targetWidth fillChar Align.left

/-! ### Frame-line truncation (src/core/progress.ts, renderFrame)

The final step of `renderFrame` is

    const lineWidth = getStringWidth(line);
    if (lineWidth > termWidth) {
      line = `${line.slice(0, termWidth - 3)}...`;
    }

Strings here are modelled as lists of code points (`List Char`), restricted to
strings whose graphemes are single BMP code points: on that submodel each
character is its own grapheme cluster and occupies one UTF-16 code unit, so
`splitGraphemes` is the per-character split, `getStringWidth` is the sum of
`getCharWidth` over the characters, and `String.prototype.slice` (which
counts UTF-16 code units) is `List.take` after resolving a possibly negative
end index the way `slice` does. -/

/-- Embedding of `getStringWidth` on the single-code-unit submodel. -/
def getLineWidth (line : List Char) : Nat :=
  (line.map getCharWidth).sum

/-- Embedding of `s.slice(0, e)`: a negative `e` is taken relative to the end
of the string and clamped at 0, a non-negative `e` is clamped at the length. -/
def jsSliceUpTo (line : List Char) (e : Int) : List Char :=
  let len : Int := line.length
  let rel := if e < 0 then max (len + e) 0 else min e len
  line.take rel.toNat

/-- Embedding of the overflow-truncation step of `renderFrame`: when the
assembled line measures wider than the terminal, cut at `termWidth - 3`
UTF-16 code units and append the three-character ellipsis marker. -/
def truncateFrameLine (line : List Char) (termWidth : Nat) : List Char :=
  if getLineWidth line > termWidth then
    jsSliceUpTo line ((termWidth : Int) - 3) ++ ['.', '.', '.']
  else
    line

/-! ### Timing utilities (src/utils/timing.ts)

Timestamps (`Date.now()`) are threaded through the operations as explicit
`now` arguments; all numbers are exact rationals. -/

/-- State of the `RateSmoother` class. -/
structure RateSmoother where
  smoothedRate : ℚ
  alpha : ℚ
  initialized : Bool
  deriving Repr, DecidableEq

/-- Embedding of the `RateSmoother` constructor (the source default for
`alpha` is 0.1). -/
def RateSmoother.create (alpha : ℚ) : RateSmoother :=
  { smoothedRate := 0, alpha := alpha, initialized := false }

/-- Embedding of `RateSmoother.update`: returns the value the method returns
together with the updated object state. -/
def RateSmoother.update (s : RateSmoother) (rate : ℚ) : ℚ × RateSmoother :=
  if s.initialized then
    let v := s.alpha * rate + (1 - s.alpha) * s.smoothedRate
    (v, { s with smoothedRate := v })
  else
    (rate, { s with smoothedRate := rate, initialized := true })

/-- Embedding of `RateSmoother.get`. -/
def RateSmoother.get (s : RateSmoother) : ℚ :=
  s.smoothedRate

/-- Embedding of `RateSmoother.reset`. -/
def RateSmoother.reset (s : RateSmoother) : RateSmoother :=
  { s with smoothedRate := 0, initialized := false }

/-- State of the `Timer` class; `pauseStart = none` models the `null` field. -/
structure Timer where
  startTime : ℚ
  pausedTime : ℚ
  pauseStart : Option ℚ
  deriving Repr, DecidableEq

/-- Embedding of `Timer.elapsed`.  The source computes
`pausedDuration = this.pauseStart ? now - this.pauseStart : 0`; the truthiness
test makes both `null` and a 0 timestamp yield 0. -/
def Timer.elapsed (t : Timer) (now : ℚ) : ℚ :=
  let pausedDuration :=
    match t.pauseStart with
    | some ps => if ps = 0 then 0 else now - ps
    | none => 0
  (now - t.startTime - t.pausedTime - pausedDuration) / 1000

/-- Embedding of `Timer.pause`: only records a pause start when none is set. -/
def Timer.pause (t : Timer) (now : ℚ) : Timer :=
  match t.pauseStart with
  | none => { t with pauseStart := some now }
  | some _ => t

/-- Embedding of `Timer.resume`: only acts when a pause start is set. -/
def Timer.resume (t : Timer) (now : ℚ) : Timer :=
  match t.pauseStart with
  | some ps => { t with pausedTime := t.pausedTime + (now - ps), pauseStart := none }
  | none => t

/-- State of the `ETACalculator` class. -/
structure ETACalculator where
  rateSmoother : RateSmoother
  lastCount : ℚ
  lastTime : ℚ
  deriving Repr, DecidableEq

/-- Embedding of `ETACalculator.update`.  The returned ETA is `none` for the
JavaScript value `Number.POSITIVE_INFINITY` and `some e` for a finite `e`. -/
def ETACalculator.update (c : ETACalculator) (current total : ℚ) (now : ℚ) :
    Option ℚ × ETACalculator :=
  let timeDelta := (now - c.lastTime) / 1000
  let c1 :=
    if timeDelta > 0 then
      let countDelta := current - c.lastCount
      let smoother :=
        if countDelta > 0 then
          (c.rateSmoother.update (countDelta / timeDelta)).2
        else
          c.rateSmoother
      { c with rateSmoother := smoother, lastTime := now, lastCount := current }
    else
      c
  let rate := c1.rateSmoother.get
  if rate ≤ 0 then
    (none, c1)
  else
    (some ((total - current) / rate), c1)

/-- Embedding of `ETACalculator.getRate`. -/
def ETACalculator.getRate (c : ETACalculator) : ℚ :=
  c.rateSmoother.get

/-! ### Number formatting (src/core/progress.ts, formatNumber)

The number-to-string primitives of JavaScript are embedded as follows:
`Number.isInteger(value)` on an exact rational is `value.den = 1`;
`value.toString()` (only reached on integral values) prints the integer in
decimal; `value.toFixed(p)` rounds to the nearest multiple of `10^(-p)`,
ties toward the larger value (the ECMA-262 rule), and prints with exactly
`p` fraction digits.  The concrete values used in the theorems below are
exactly representable as doubles, so the rational model agrees with the
floating-point source on them. -/

/-- Decimal digit character for `k % 10`. -/
def digitChar (k : Nat) : Char :=
  ['0', '1', '2', '3', '4', '5', '6', '7', '8', '9'].getD (k % 10) '9'

/-- Decimal digits of a natural number, most significant first; the recursion
is structural on a fuel argument so that it reduces definitionally, and
`natDigits` supplies fuel `n + 1`, which is enough since the argument at
least halves each step. -/
def natDigitsAux : Nat → Nat → List Char
  | 0, _ => []
  | fuel + 1, n =>
    if n < 10 then [digitChar n]
    else natDigitsAux fuel (n / 10) ++ [digitChar (n % 10)]

/-- Decimal digits of a natural number, most significant first. -/
def natDigits (n : Nat) : List Char :=
  natDigitsAux (n + 1) n

/-- Rendering of an integer by `Number.prototype.toString` (integral doubles
print as a sign and decimal digits, never with a decimal point). -/
def jsIntToString (i : Int) : String :=
  if i < 0 then "-" ++ String.mk (natDigits i.natAbs)
  else String.mk (natDigits i.natAbs)

/-- Left-pad a digit list with zeros to length `p`. -/
def padZerosTo (p : Nat) (digits : List Char) : List Char :=
  List.replicate (p - digits.length) '0' ++ digits

/-- Embedding of `Number.prototype.toFixed`: `n` is the integer nearest to
`q * 10^p` (ties toward the larger, which is `⌊q * 10^p + 1/2⌋`), printed with
a decimal point before the last `p` digits when `p > 0`. -/
def jsToFixed (q : ℚ) (p : Nat) : String :=
  let n : Int := Int.floor (q * (10 : ℚ) ^ p + 1 / 2)
  let sign := if n < 0 then "-" else ""
  let m := n.natAbs
  if p = 0 then
    sign ++ String.mk (natDigits m)
  else
    let intPart := m / 10 ^ p
    let fracPart := m % 10 ^ p
    sign ++ String.mk (natDigits intPart) ++ "." ++ String.mk (padZerosTo p (natDigits fracPart))

/-- Scale selector of `formatNumber` (`"SI" | "IEC" | "SI2"`; `null` is
`Option.none` at the use sites). -/
inductive NumScale where
  | SI
  | IEC
  | SI2
  deriving Repr, DecidableEq

/-- Loop of `formatNumber`: `while (scaled >= factor && suffixIndex < maxIndex)`
divide by the factor and advance the suffix index.  The index strictly
increases and is capped by `maxIndex`, so fuel `maxIndex + 1` (passed at the
call site) makes the fueled recursion coincide with the source loop. -/
def scaleLoop (factor : ℚ) (maxIndex : Nat) : ℚ → Nat → Nat → ℚ × Nat
  | scaled, suffixIndex, 0 => (scaled, suffixIndex)
  | scaled, suffixIndex, fuel + 1 =>
    if scaled ≥ factor ∧ suffixIndex < maxIndex then
      scaleLoop factor maxIndex (scaled / factor) (suffixIndex + 1) fuel
    else
      (scaled, suffixIndex)

/-- Embedding of `formatNumber`.  With no scale, integral values print via
`toString` and fractional ones via `toFixed(precision)`; with a scale the
value is repeatedly divided by the factor and always printed via
`toFixed(precision)` plus the reached suffix.  The template
`` `${formatted}${unit}` `` is string concatenation, and the `unit ? ... :`
truthiness test is expanded (an empty unit is falsy). -/
def formatNumber (value : ℚ) (scale : Option NumScale) (precision : Nat)
    (unit : String) : String :=
  match scale with
  | none =>
    let formatted := if value.den = 1 then jsIntToString value.num else jsToFixed value precision
    if unit = "" then formatted else formatted ++ unit
  | some sc =>
    let factor : ℚ := if sc = NumScale.IEC then 1024 else 1000
    let suffixes : List String :=
      if sc = NumScale.IEC then ["", "Ki", "Mi", "Gi", "Ti", "Pi"]
      else ["", "k", "M", "G", "T", "P"]
    let maxIndex := suffixes.length - 1
    let sl := scaleLoop factor maxIndex value 0 (maxIndex + 1)
    let formatted := jsToFixed sl.1 precision
    formatted ++ suffixes.getD sl.2 "" ++ unit

/-! ### FPS calibration (src/core/calibration.ts)

`calculateFps` is the one place the code leaves exact arithmetic:
`Math.log10` over doubles is modelled as `Real.logb 10` over the reals, so
this definition lives in ℝ and is noncomputable. -/

/-- Embedding of `calculateFps` with `MIN_FPS = 2`, `MAX_FPS = 60`; the
source default for `calibrate` is 1,000,000. -/
noncomputable def calculateFps (rate : ℝ) (calibrate : ℝ) : ℝ :=
  if rate ≤ 0 then 2
  else
    let adjust := 60 / Real.logb 10 (calibrate + 1)
    let fps := Real.logb 10 (rate + 1) * adjust
    min 60 (max 2 fps)

/-! ### Progress engine state (src/core/progress.ts)

The mutable `ProgressState` is embedded as an immutable record and every
handler becomes a state-to-state function.  Terminal and timer side effects
(clearing lines, hooks, the refresh loop) are outside the model; the timer's
elapsed seconds enter `finalize` as an explicit argument. -/

/-- Embedding of the `Receipt` interface; `total = none` is the `null` total. -/
structure Receipt where
  total : Option ℚ
  count : ℚ
  percent : ℚ
  elapsed : ℚ
  rate : ℚ
  success : Bool
  overflow : Bool
  underflow : Bool
  deriving Repr, DecidableEq

/-- Receipt construction of `finalize` (progress.ts lines 383-399).  The
percent branch is guarded by the truthiness of `state.total`, so both `null`
and a 0 total yield 100. -/
def mkReceipt (total : Option ℚ) (current skipped elapsed : ℚ) : Receipt :=
  let actualCurrent := current - skipped
  let overflow :=
    match total with
    | some t => decide (actualCurrent > t)
    | none => false
  let underflow :=
    match total with
    | some t => decide (actualCurrent < t)
    | none => false
  let success := !(overflow || underflow)
  let rate := if elapsed > 0 then actualCurrent / elapsed else 0
  let percent :=
    match total with
    | some t => if t = 0 then 100 else actualCurrent / t * 100
    | none => 100
  { total := total, count := actualCurrent, percent := percent, elapsed := elapsed,
    rate := rate, success := success, overflow := overflow, underflow := underflow }

/-- The fields of the engine's mutable state that the bar handler, the
text/title setters and `finalize` read or write. -/
structure ProgressState where
  total : Option ℚ
  current : ℚ
  skipped : ℚ
  text : String
  title : String
  isRunning : Bool
  isPaused : Bool
  receipt : Option Receipt
  deriving Repr, DecidableEq

/-- The configuration bit the bar handler consults. -/
structure BarConfig where
  manual : Bool
  deriving Repr, DecidableEq

/-- Truthiness of `state.total || 100` in the manual-mode branch: `null` and
0 are falsy, so both fall back to 100. -/
def totalOr100 (total : Option ℚ) : ℚ :=
  match total with
  | none => 100
  | some t => if t = 0 then 100 else t

/-- Embedding of the bar handler `barFn(count, opts)`: an early return when
not running, the skipped bookkeeping, then either the manual-mode assignment
`current = count * (total || 100)` or the accumulation `current += count`. -/
def barIncrement (config : BarConfig) (s : ProgressState) (count : ℚ)
    (skippedFlag : Bool) : ProgressState :=
  if !s.isRunning then s
  else
    let s1 := if skippedFlag then { s with skipped := s.skipped + count } else s
    if config.manual then
      { s1 with current := count * totalOr100 s1.total }
    else
      { s1 with current := s1.current + count }

/-- Embedding of the `current` property getter: `state.current - state.skipped`. -/
def barCurrent (s : ProgressState) : ℚ :=
  s.current - s.skipped

/-- Embedding of the `text` setter and `setText`: unconditionally writes
`state.text`. -/
def setText (s : ProgressState) (value : String) : ProgressState :=
  { s with text := value }

/-- Embedding of the `title` setter and `setTitle`: unconditionally writes
`state.title`. -/
def setTitle (s : ProgressState) (value : String) : ProgressState :=
  { s with title := value }

/-- Embedding of `finalize`: clears `isRunning` and stores the receipt (the
refresh loop, hooks and terminal output it also performs are effects outside
the state model). -/
def finalize (s : ProgressState) (elapsed : ℚ) : ProgressState :=
  { s with isRunning := false,
           receipt := some (mkReceipt s.total s.current s.skipped elapsed) }

/-! ### Theorems -/

/-- C2: every Receipt built by finalize satisfies
`success == !(overflow || underflow)`, and a null total forces
`overflow = underflow = false`, hence `success = true`. -/
theorem c2_receipt_invariant (total : Option ℚ) (current skipped elapsed : ℚ) :
    (mkReceipt total current skipped elapsed).success
      = !((mkReceipt total current skipped elapsed).overflow
          || (mkReceipt total current skipped elapsed).underflow)
    ∧ (mkReceipt none current skipped elapsed).overflow = false
    ∧ (mkReceipt none current skipped elapsed).underflow = false
    ∧ (mkReceipt none current skipped elapsed).success = true := by
  refine ⟨?_, ?_, ?_, ?_⟩ <;> simp [mkReceipt]

/-- C3: for alpha in (0,1), a fresh RateSmoother reads 0, its first update
returns the sample unchanged, the second update returns
`alpha*x2 + (1-alpha)*x1`, and an update right after reset again returns the
sample unchanged. -/
theorem c3_smoother_first_updates (alpha x1 x2 : ℚ) (s : RateSmoother)
    (_h0 : 0 < alpha) (_h1 : alpha < 1) :
    (RateSmoother.create alpha).get = 0
    ∧ ((RateSmoother.create alpha).update x1).1 = x1
    ∧ ((((RateSmoother.create alpha).update x1).2).update x2).1
        = alpha * x2 + (1 - alpha) * x1
    ∧ ((s.reset).update x1).1 = x1 := by
  refine ⟨rfl, ?_, ?_, ?_⟩ <;>
    simp [RateSmoother.create, RateSmoother.update, RateSmoother.reset, RateSmoother.get]

/-- Witness for `c3_smoother_first_updates` at `alpha = 1/2`, `x1 = 3`,
`x2 = 5`. -/
theorem c3_smoother_first_updates_witness :
    (RateSmoother.create (1/2)).get = 0
    ∧ ((RateSmoother.create (1/2)).update 3).1 = 3
    ∧ ((((RateSmoother.create (1/2)).update 3).2).update 5).1
        = (1/2) * 5 + (1 - 1/2) * 3
    ∧ (((RateSmoother.create (1/2)).reset).update 3).1 = 3 :=
  c3_smoother_first_updates (1/2) 3 5 (RateSmoother.create (1/2))
    (by norm_num) (by norm_num)

/-- C4 counterexample: in manual mode with `total = 0` (and the bar running),
the handler sets `current` to `v * 100 = 50`, not to `v * (total ?? 100) = 0`:
the source uses `state.total || 100`, whose truthiness test sends 0 to 100. -/
theorem c4_counterexample :
    (barIncrement { manual := true }
      { total := some 0, current := 7, skipped := 0, text := "", title := "",
        isRunning := true, isPaused := false, receipt := none }
      (1/2) false).current = 50
    ∧ (barIncrement { manual := true }
      { total := some 0, current := 7, skipped := 0, text := "", title := "",
        isRunning := true, isPaused := false, receipt := none }
      (1/2) false).current ≠ (1/2) * 0 := by
  constructor
  · norm_num [barIncrement, totalOr100]
  · norm_num [barIncrement, totalOr100]

/-- C4 amended: in manual mode while running, the handler replaces `current`
with `v * (total || 100)` — falling back to 100 when total is null or 0 and
using total itself otherwise — independently of the previous `current`; with
`total = 100`, increment(1/2) then increment(3/4) makes `current` read 50 and
then 75. -/
theorem c4_manual_mode (cfg : BarConfig) (s : ProgressState) (v : ℚ)
    (hm : cfg.manual = true) (hr : s.isRunning = true) :
    (barIncrement cfg s v false).current = v * totalOr100 s.total
    ∧ (barIncrement cfg s v false).skipped = s.skipped
    ∧ totalOr100 none = 100
    ∧ totalOr100 (some 0) = 100
    ∧ (∀ t : ℚ, t ≠ 0 → totalOr100 (some t) = t)
    ∧ barCurrent (barIncrement { manual := true }
        { total := some 100, current := 0, skipped := 0, text := "", title := "",
          isRunning := true, isPaused := false, receipt := none } (1/2) false) = 50
    ∧ barCurrent (barIncrement { manual := true }
        (barIncrement { manual := true }
          { total := some 100, current := 0, skipped := 0, text := "", title := "",
            isRunning := true, isPaused := false, receipt := none } (1/2) false)
        (3/4) false) = 75 := by
  refine ⟨?_, ?_, rfl, rfl, ?_, ?_, ?_⟩
  · simp [barIncrement, hm, hr]
  · simp [barIncrement, hm, hr]
  · intro t ht
    simp [totalOr100, ht]
  · simp [barIncrement, barCurrent, totalOr100]
    norm_num
  · simp [barIncrement, barCurrent, totalOr100]
    norm_num

/-- Witness for `c4_manual_mode` on a concrete running manual-mode state. -/
theorem c4_manual_mode_witness :
    (barIncrement { manual := true }
      { total := some 80, current := 3, skipped := 0, text := "", title := "",
        isRunning := true, isPaused := false, receipt := none }
      (1/4) false).current
      = (1/4) * totalOr100 (some 80)
    ∧ (barIncrement { manual := true }
      { total := some 80, current := 3, skipped := 0, text := "", title := "",
        isRunning := true, isPaused := false, receipt := none }
      (1/4) false).skipped = 0
    ∧ totalOr100 none = 100
    ∧ totalOr100 (some 0) = 100
    ∧ (∀ t : ℚ, t ≠ 0 → totalOr100 (some t) = t)
    ∧ barCurrent (barIncrement { manual := true }
        { total := some 100, current := 0, skipped := 0, text := "", title := "",
          isRunning := true, isPaused := false, receipt := none } (1/2) false) = 50
    ∧ barCurrent (barIncrement { manual := true }
        (barIncrement { manual := true }
          { total := some 100, current := 0, skipped := 0, text := "", title := "",
            isRunning := true, isPaused := false, receipt := none } (1/2) false)
        (3/4) false) = 75 :=
  c4_manual_mode { manual := true }
    { total := some 80, current := 3, skipped := 0, text := "", title := "",
      isRunning := true, isPaused := false, receipt := none }
    (1/4) rfl rfl

/-- C8 counterexample: after finalization the text setter still mutates the
state — starting from text `"a"`, setting `"b"` changes the stored text, so
not every mutation through the handle is a no-op. -/
theorem c8_counterexample :
    (setText (finalize
      { total := some 10, current := 10, skipped := 0, text := "a", title := "",
        isRunning := true, isPaused := false, receipt := none } 1) "b").text
    ≠ (finalize
      { total := some 10, current := 10, skipped := 0, text := "a", title := "",
        isRunning := true, isPaused := false, receipt := none } 1).text := by
  decide

/-- C8 amended: after finalization the increment handler is a no-op (the
whole state, in particular `current` and `skipped`, is unchanged), but the
text and title setters are not guarded by `isRunning` and still overwrite
their fields. -/
theorem c8_after_finalize (cfg : BarConfig) (s : ProgressState)
    (elapsed count : ℚ) (flag : Bool) (str ttl : String) :
    barIncrement cfg (finalize s elapsed) count flag = finalize s elapsed
    ∧ (setText (finalize s elapsed) str).text = str
    ∧ (setTitle (finalize s elapsed) ttl).title = ttl
    ∧ (finalize s elapsed).isRunning = false := by
  refine ⟨?_, rfl, rfl, rfl⟩
  simp [barIncrement, finalize]

/-- C10: pausing an already-paused timer keeps the original pause start (so
paused time is never double-counted: resuming after a redundant pause adds
exactly `n3 - n1`), resuming a non-paused timer is the identity, and the
redundant calls leave `elapsed` unchanged. -/
theorem c10_timer_idempotent (t : Timer) (n1 n2 n3 : ℚ)
    (h : t.pauseStart = none) :
    (t.pause n1).pause n2 = t.pause n1
    ∧ t.resume n1 = t
    ∧ ((t.pause n1).pause n2).elapsed n3 = (t.pause n1).elapsed n3
    ∧ (((t.pause n1).pause n2).resume n3).pausedTime = t.pausedTime + (n3 - n1) := by
  have hp : (t.pause n1).pause n2 = t.pause n1 := by
    cases ht : t.pauseStart <;> simp [Timer.pause, ht]
  refine ⟨hp, ?_, by rw [hp], ?_⟩
  · simp [Timer.resume, h]
  · rw [hp]
    simp [Timer.pause, Timer.resume, h]

/-- Witness for `c10_timer_idempotent` on a concrete non-paused timer. -/
theorem c10_timer_idempotent_witness :
    (Timer.pause (Timer.pause ⟨1000, 5, none⟩ 2000) 3000)
      = Timer.pause ⟨1000, 5, none⟩ 2000
    ∧ Timer.resume ⟨1000, 5, none⟩ 2000 = ⟨1000, 5, none⟩
    ∧ (Timer.elapsed (Timer.pause (Timer.pause ⟨1000, 5, none⟩ 2000) 3000) 4000)
      = Timer.elapsed (Timer.pause ⟨1000, 5, none⟩ 2000) 4000
    ∧ (Timer.resume (Timer.pause (Timer.pause ⟨1000, 5, none⟩ 2000) 3000) 4000).pausedTime
      = 5 + (4000 - 2000) :=
  c10_timer_idempotent ⟨1000, 5, none⟩ 2000 3000 4000 rfl

/-- Unfolding of the state component of `ETACalculator.update`: the smoother
is replaced only inside the positive-time-delta, positive-count-delta branch. -/
theorem c5_state_eq (c : ETACalculator) (current total now : ℚ) :
    (c.update current total now).2.rateSmoother
      = (if 0 < (now - c.lastTime) / 1000 then
          (if 0 < current - c.lastCount then
            (c.rateSmoother.update ((current - c.lastCount) / ((now - c.lastTime) / 1000))).2
          else c.rateSmoother)
        else c.rateSmoother) := by
  simp only [ETACalculator.update]
  split_ifs <;> simp_all

/-- Unfolding of the returned ETA of `ETACalculator.update` in terms of the
post-update smoothed rate. -/
theorem c5_ret_eq (c : ETACalculator) (current total now : ℚ) :
    (c.update current total now).1
      = (if (c.update current total now).2.rateSmoother.get ≤ 0 then none
         else some ((total - current) / (c.update current total now).2.rateSmoother.get)) := by
  simp only [ETACalculator.update]
  split_ifs <;> simp_all [RateSmoother.get]

/-- C5: `ETACalculator.update` feeds the smoother exactly when both the time
delta and the count delta are strictly positive — a non-positive time or
count delta leaves the smoother untouched — and the returned ETA is
`(total - current) / smoothedRate` for a positive post-update smoothed rate
and positive infinity (modelled as `none`) otherwise. -/
theorem c5_eta_update (c : ETACalculator) (current total now : ℚ) :
    ((now - c.lastTime) / 1000 ≤ 0 →
      (c.update current total now).2.rateSmoother = c.rateSmoother)
    ∧ (current - c.lastCount ≤ 0 →
      (c.update current total now).2.rateSmoother = c.rateSmoother)
    ∧ (0 < (now - c.lastTime) / 1000 → 0 < current - c.lastCount →
      (c.update current total now).2.rateSmoother
        = (c.rateSmoother.update
            ((current - c.lastCount) / ((now - c.lastTime) / 1000))).2)
    ∧ ((c.update current total now).2.rateSmoother.get ≤ 0 →
      (c.update current total now).1 = none)
    ∧ (0 < (c.update current total now).2.rateSmoother.get →
      (c.update current total now).1
        = some ((total - current) / (c.update current total now).2.rateSmoother.get)) := by
  refine ⟨?_, ?_, ?_, ?_, ?_⟩
  · intro hT
    rw [c5_state_eq, if_neg (not_lt.mpr hT)]
  · intro hC
    rw [c5_state_eq]
    split_ifs with h1 h2 <;> first | rfl | linarith
  · intro hT hC
    rw [c5_state_eq, if_pos hT, if_pos hC]
  · intro hRate
    rw [c5_ret_eq, if_pos hRate]
  · intro hRate
    rw [c5_ret_eq, if_neg (not_le.mpr hRate)]

/-- Witness for `c5_eta_update`: from a fresh calculator at time 0, an update
to count 5 of 10 at time 2000 ms has both deltas positive and a positive
smoothed rate, so the smoother absorbs the instant rate and a finite ETA is
returned. -/
theorem c5_eta_update_witness :
    ((ETACalculator.update ⟨RateSmoother.create (1/10), 0, 0⟩ 5 10 2000).2.rateSmoother
      = (RateSmoother.update (RateSmoother.create (1/10)) ((5 - 0) / ((2000 - 0) / 1000))).2)
    ∧ ((ETACalculator.update ⟨RateSmoother.create (1/10), 0, 0⟩ 5 10 2000).1
      = some ((10 - 5) /
          (ETACalculator.update ⟨RateSmoother.create (1/10), 0, 0⟩ 5 10 2000).2.rateSmoother.get)) :=
  ⟨(c5_eta_update ⟨RateSmoother.create (1/10), 0, 0⟩ 5 10 2000).2.2.1
      (by norm_num) (by norm_num),
   (c5_eta_update ⟨RateSmoother.create (1/10), 0, 0⟩ 5 10 2000).2.2.2.2
      (by simp [ETACalculator.update, RateSmoother.create, RateSmoother.update,
                RateSmoother.get]; norm_num)⟩

/-- C6: `calculateFps 0` (at the default calibration 1,000,000) is exactly 2,
every rate — negative ones included — yields a value in `[2, 60]`, and for a
fixed calibration of at least 1 the function is non-decreasing in the rate. -/
theorem c6_fps_bounds_mono (r1 r2 cal : ℝ) (hr : r1 ≤ r2) (hc : 1 ≤ cal) :
    calculateFps 0 1000000 = 2
    ∧ 2 ≤ calculateFps r1 1000000
    ∧ calculateFps r1 1000000 ≤ 60
    ∧ calculateFps r1 cal ≤ calculateFps r2 cal := by
  have bounds : ∀ (r c : ℝ), 2 ≤ calculateFps r c ∧ calculateFps r c ≤ 60 := by
    intro r c
    unfold calculateFps
    split
    · norm_num
    · constructor
      · exact le_min (by norm_num) (le_max_left 2 _)
      · exact min_le_left 60 _
  have mono : calculateFps r1 cal ≤ calculateFps r2 cal := by
    by_cases h1 : r1 ≤ 0
    · by_cases h2 : r2 ≤ 0
      · simp [calculateFps, h1, h2]
      · calc calculateFps r1 cal = 2 := by simp [calculateFps, h1]
          _ ≤ calculateFps r2 cal := (bounds r2 cal).1
    · have h2 : ¬ r2 ≤ 0 := fun h => h1 (hr.trans h)
      have hadj : 0 ≤ 60 / Real.logb 10 (cal + 1) := by
        apply div_nonneg (by norm_num)
        exact le_of_lt (Real.logb_pos (by norm_num) (by linarith))
      have hlog : Real.logb 10 (r1 + 1) ≤ Real.logb 10 (r2 + 1) := by
        exact Real.logb_le_logb_of_le (by norm_num) (by linarith) (by linarith)
      simp only [calculateFps, if_neg h1, if_neg h2]
      exact min_le_min le_rfl
        (max_le_max le_rfl (mul_le_mul_of_nonneg_right hlog hadj))
  exact ⟨by simp [calculateFps], (bounds r1 1000000).1, (bounds r1 1000000).2, mono⟩

/-- Witness for `c6_fps_bounds_mono` at rates 1 ≤ 2 and calibration 1,000,000. -/
theorem c6_fps_bounds_mono_witness :
    calculateFps 0 1000000 = 2
    ∧ 2 ≤ calculateFps 1 1000000
    ∧ calculateFps 1 1000000 ≤ 60
    ∧ calculateFps 1 1000000 ≤ calculateFps 2 1000000 :=
  c6_fps_bounds_mono 1 2 1000000 (by norm_num) (by norm_num)

/-- Digit characters are never a decimal point. -/
theorem digitChar_ne_dot (k : Nat) : digitChar k ≠ '.' := by
  have h : ∀ m, m < 10 →
      (['0', '1', '2', '3', '4', '5', '6', '7', '8', '9'].getD m '9') ≠ '.' := by
    decide
  exact h (k % 10) (Nat.mod_lt k (by decide))

/-- No decimal point ever appears among the digits produced by `natDigitsAux`. -/
theorem dot_not_mem_natDigitsAux (fuel : Nat) : ∀ n, '.' ∉ natDigitsAux fuel n := by
  induction fuel with
  | zero =>
    intro n
    simp [natDigitsAux]
  | succ f ih =>
    intro n
    simp only [natDigitsAux]
    split_ifs with h
    · simp only [List.mem_singleton]
      exact (digitChar_ne_dot n).symm
    · intro hmem
      rcases List.mem_append.mp hmem with hmem1 | hmem2
      · exact ih (n / 10) hmem1
      · exact (digitChar_ne_dot (n % 10)).symm (List.mem_singleton.mp hmem2)

/-- Integral JavaScript numbers print with no decimal point. -/
theorem dot_not_mem_jsIntToString (i : Int) : '.' ∉ (jsIntToString i).toList := by
  unfold jsIntToString
  split_ifs with h
  · intro hmem
    simp only [String.toList, String.data_append] at hmem
    rcases List.mem_append.mp hmem with hmem1 | hmem2
    · simp at hmem1
    · exact dot_not_mem_natDigitsAux (i.natAbs + 1) i.natAbs hmem2
  · exact dot_not_mem_natDigitsAux (i.natAbs + 1) i.natAbs

/-- C9 counterexample: with an SI scale and precision 1, the integral value 5
renders as `"5.0"` — the scaled path always goes through
`toFixed(precision)`, so an integral value does get a decimal point. -/
theorem c9_counterexample :
    formatNumber 5 (some NumScale.SI) 1 "" = "5.0" ∧ '.' ∈ "5.0".toList := by
  constructor
  · have h50 : (⌊(5 : ℚ) * 10 + 2⁻¹⌋ : ℤ) = 50 := by norm_num
    have hsl : scaleLoop 1000 5 (5 : ℚ) 0 6 = (5, 0) := by norm_num [scaleLoop]
    simp [formatNumber, hsl, jsToFixed, h50]
    decide
  · decide

/-- C9 amended: with no scale selected, an integral value renders without a
decimal point regardless of the precision setting (and of the unit, provided
the unit label itself contains no dot); with an SI or IEC scale the value is
always printed via `toFixed(precision)`, so a nonzero precision produces a
decimal point even for integral values. -/
theorem c9_integral_no_dot (value : ℚ) (precision : Nat) (unit : String)
    (hv : value.den = 1) (hu : '.' ∉ unit.toList) :
    '.' ∉ (formatNumber value none precision unit).toList := by
  by_cases hun : unit = ""
  · simp only [formatNumber, hv, if_pos, hun, if_true]
    exact dot_not_mem_jsIntToString value.num
  · simp only [formatNumber, hv, if_pos, hun, if_false]
    intro hmem
    simp only [String.toList, String.data_append] at hmem
    rcases List.mem_append.mp hmem with hmem1 | hmem2
    · exact dot_not_mem_jsIntToString value.num hmem1
    · exact hu hmem2

/-- Witness for `c9_integral_no_dot` at value 42, precision 3, unit `"B"`. -/
theorem c9_integral_no_dot_witness :
    (42 : ℚ).den = 1 ∧ '.' ∉ "B".toList ∧ '.' ∉ (formatNumber 42 none 3 "B").toList :=
  ⟨by decide, by decide, c9_integral_no_dot 42 3 "B" (by decide) (by decide)⟩

/-- A line of 1-column characters measures its length. -/
theorem getLineWidth_of_ones :
    ∀ line : List Char, (∀ c ∈ line, getCharWidth c = 1) → getLineWidth line = line.length := by
  intro line
  induction line with
  | nil => intro _; rfl
  | cons c t ih =>
    intro h
    have hc : getCharWidth c = 1 := h c (List.mem_cons_self c t)
    have ht : ∀ x ∈ t, getCharWidth x = 1 := fun x hx => h x (List.mem_cons_of_mem c hx)
    have ih2 := ih ht
    simp only [getLineWidth, List.map_cons, List.sum_cons, List.length_cons] at ih2 ⊢
    omega

/-- C7 counterexample: a line of four CJK characters (8 display cells) on a
6-column terminal is cut at `6 - 3 = 3` UTF-16 code units, keeping three
2-cell characters; the result measures 9 display cells, not the 6 the claim
(3 cells kept plus a 3-cell ellipsis) would give — the slice counts code
units, not display cells. -/
theorem c7_counterexample :
    truncateFrameLine ['中', '中', '中', '中'] 6 = ['中', '中', '中', '.', '.', '.']
    ∧ getLineWidth (truncateFrameLine ['中', '中', '中', '中'] 6) ≠ 6 := by
  constructor
  · decide
  · decide

/-- C7 amended: the composer cuts an over-width line at `termWidth - 3` UTF-16
code units (not display cells) and appends `"..."`; when every character of
the line is a 1-column single-code-unit character and the terminal is at
least 3 columns wide, this coincides with the claimed behavior — the kept
prefix is `termWidth - 3` whole characters (so no grapheme is split) and the
result measures exactly `termWidth` cells. -/
theorem c7_truncation (line : List Char) (termWidth : Nat)
    (h1 : ∀ c ∈ line, getCharWidth c = 1) (h2 : 3 ≤ termWidth)
    (h3 : termWidth < getLineWidth line) :
    truncateFrameLine line termWidth = line.take (termWidth - 3) ++ ['.', '.', '.']
    ∧ getLineWidth (truncateFrameLine line termWidth) = termWidth := by
  have hlen : getLineWidth line = line.length := getLineWidth_of_ones line h1
  have hlen2 : termWidth < line.length := hlen ▸ h3
  have hslice : jsSliceUpTo line ((termWidth : Int) - 3) = line.take (termWidth - 3) := by
    simp only [jsSliceUpTo]
    rw [if_neg (show ¬ ((termWidth : Int) - 3 < 0) by omega)]
    have hmin : min ((termWidth : Int) - 3) (line.length : Int) = (termWidth : Int) - 3 := by
      apply min_eq_left
      omega
    rw [hmin]
    congr 1
    omega
  have heq : truncateFrameLine line termWidth = line.take (termWidth - 3) ++ ['.', '.', '.'] := by
    unfold truncateFrameLine
    rw [if_pos h3, hslice]
  refine ⟨heq, ?_⟩
  rw [heq]
  have htake : ∀ c ∈ line.take (termWidth - 3), getCharWidth c = 1 :=
    fun c hc => h1 c (List.mem_of_mem_take hc)
  have h4 : getLineWidth (line.take (termWidth - 3)) = termWidth - 3 := by
    rw [getLineWidth_of_ones _ htake, List.length_take]
    omega
  simp only [getLineWidth, List.map_append, List.sum_append] at h4 ⊢
  have hdots : ((['.', '.', '.'] : List Char).map getCharWidth).sum = 3 := by decide
  rw [h4, hdots]
  omega

/-- Witness for `c7_truncation`: eight `'a'` characters on a 6-column
terminal truncate to three characters plus the ellipsis, measuring 6 cells. -/
theorem c7_truncation_witness :
    truncateFrameLine ['a', 'a', 'a', 'a', 'a', 'a', 'a', 'a'] 6
      = (['a', 'a', 'a', 'a', 'a', 'a', 'a', 'a'] : List Char).take (6 - 3) ++ ['.', '.', '.']
    ∧ getLineWidth (truncateFrameLine ['a', 'a', 'a', 'a', 'a', 'a', 'a', 'a'] 6) = 6 :=
  c7_truncation ['a', 'a', 'a', 'a', 'a', 'a', 'a', 'a'] 6 (by decide) (by decide) (by decide)

/-- The width fold equals the sum of the cell widths, for any accumulator. -/
theorem foldl_width (l : List Cell) : ∀ a : Nat,
    l.foldl (fun sum cell => sum + cell.width) a = a + (l.map Cell.width).sum := by
  induction l with
  | nil => intro a; simp
  | cons c t ih =>
    intro a
    simp only [List.foldl_cons, List.map_cons, List.sum_cons, ih]
    omega

/-- `getCellsWidth` is the sum of the cell widths. -/
theorem getCellsWidth_eq_sum (l : List Cell) : getCellsWidth l = (l.map Cell.width).sum := by
  simpa [getCellsWidth] using foldl_width l 0

/-- `getCharWidth` only ever returns 1 or 2. -/
theorem getCharWidth_one_or_two (c : Char) : getCharWidth c = 1 ∨ getCharWidth c = 2 := by
  simp only [getCharWidth]
  split
  · exact Or.inr rfl
  · exact Or.inl rfl

/-- The truncation loop never exceeds `maxWidth`: starting from a running
width within budget, the kept cells stay within budget. -/
theorem truncateCellsAux_le (maxWidth : Nat) : ∀ (cells : List Cell) (w : Nat), w ≤ maxWidth →
    w + getCellsWidth (truncateCellsAux maxWidth cells w) ≤ maxWidth := by
  intro cells
  induction cells with
  | nil =>
    intro w hw
    simpa [truncateCellsAux, getCellsWidth]
  | cons c t ih =>
    intro w hw
    simp only [truncateCellsAux]
    split_ifs with h
    · simpa [getCellsWidth]
    · have ih2 := ih (w + c.width) (by omega)
      rw [getCellsWidth_eq_sum] at ih2 ⊢
      simp only [List.map_cons, List.sum_cons]
      omega

/-- With cells at most 2 wide, an over-budget input truncates to within 1 of
the budget: the loop only stops short when a 2-wide cell straddles it. -/
theorem truncateCellsAux_ge (maxWidth : Nat) : ∀ (cells : List Cell),
    (∀ c ∈ cells, c.width ≤ 2) → ∀ w : Nat, w ≤ maxWidth →
    maxWidth < w + getCellsWidth cells →
    maxWidth ≤ w + getCellsWidth (truncateCellsAux maxWidth cells w) + 1 := by
  intro cells
  induction cells with
  | nil =>
    intro _ w hw hover
    rw [getCellsWidth_eq_sum] at hover
    simp at hover
    omega
  | cons c t ih =>
    intro hb w hw hover
    have hc : c.width ≤ 2 := hb c (List.mem_cons_self c t)
    have hbt : ∀ x ∈ t, x.width ≤ 2 := fun x hx => hb x (List.mem_cons_of_mem c hx)
    rw [getCellsWidth_eq_sum] at hover
    simp only [List.map_cons, List.sum_cons] at hover
    simp only [truncateCellsAux]
    split_ifs with h
    · simp [getCellsWidth]
      omega
    · have ih2 := ih hbt (w + c.width) (by omega) (by rw [getCellsWidth_eq_sum]; omega)
      rw [getCellsWidth_eq_sum] at ih2 ⊢
      simp only [List.map_cons, List.sum_cons]
      omega

/-- With all cells exactly 1 wide and enough input, truncation lands exactly
on the budget. -/
theorem truncateCellsAux_exact (maxWidth : Nat) : ∀ (cells : List Cell),
    (∀ c ∈ cells, c.width = 1) → ∀ w : Nat, w ≤ maxWidth →
    maxWidth ≤ w + getCellsWidth cells →
    w + getCellsWidth (truncateCellsAux maxWidth cells w) = maxWidth := by
  intro cells
  induction cells with
  | nil =>
    intro _ w hw hge
    rw [getCellsWidth_eq_sum] at hge
    simp at hge
    simp [truncateCellsAux, getCellsWidth]
    omega
  | cons c t ih =>
    intro h1 w hw hge
    have hc : c.width = 1 := h1 c (List.mem_cons_self c t)
    have ht : ∀ x ∈ t, x.width = 1 := fun x hx => h1 x (List.mem_cons_of_mem c hx)
    rw [getCellsWidth_eq_sum] at hge
    simp only [List.map_cons, List.sum_cons] at hge
    simp only [truncateCellsAux]
    split_ifs with h
    · simp [getCellsWidth]
      omega
    · have ih2 := ih ht (w + c.width) (by omega) (by rw [getCellsWidth_eq_sum]; omega)
      rw [getCellsWidth_eq_sum] at ih2 ⊢
      simp only [List.map_cons, List.sum_cons]
      omega

/-- Width of a padded cell list: padding reaches at least the target and
overshoots by less than one fill width; a 1-wide fill is exact. -/
theorem padCells_width_bounds (cells : List Cell) (targetWidth : Nat) (f : Char)
    (align : Align) (h : getCellsWidth cells < targetWidth) :
    targetWidth ≤ getCellsWidth (padCells cells targetWidth f align)
    ∧ getCellsWidth (padCells cells targetWidth f align)
        ≤ targetWidth + getCharWidth f - 1 := by
  simp only [padCells]
  rw [if_neg (by omega)]
  rcases getCharWidth_one_or_two f with hf | hf <;>
    cases align <;>
      simp only [hf, getCellsWidth_eq_sum, List.map_append, List.sum_append,
        List.map_replicate, List.sum_replicate, smul_eq_mul] <;>
      rw [getCellsWidth_eq_sum] at h <;> omega

/-- C1 counterexample: fixing two 2-cell-wide cells to width 3 truncates to a
single wide cell of total width 2, not 3 — `fit` does not always return
exactly the target width. -/
theorem c1_counterexample :
    getCellsWidth (fixCells [⟨"中", 2⟩, ⟨"中", 2⟩] 3 ' ') ≠ 3 := by
  decide

/-- C1 amended: for cells of width 1 or 2 and any fill character (whose width
is 1 or 2), `fixCells` lands within one display cell of the target —
truncation can stop one short when a 2-wide cell straddles the boundary, and
a 2-wide fill can overshoot by one — and it hits the target exactly whenever
every input cell and the fill character are 1 cell wide. -/
theorem c1_fit_width (cells : List Cell) (targetWidth : Nat) (f : Char)
    (hw : ∀ c ∈ cells, c.width = 1 ∨ c.width = 2) :
    targetWidth ≤ getCellsWidth (fixCells cells targetWidth f) + 1
    ∧ getCellsWidth (fixCells cells targetWidth f) ≤ targetWidth + 1
    ∧ ((∀ c ∈ cells, c.width = 1) → getCharWidth f = 1 →
        getCellsWidth (fixCells cells targetWidth f) = targetWidth) := by
  have hb : ∀ c ∈ cells, c.width ≤ 2 := by
    intro c hc
    rcases hw c hc with h1 | h2 <;> omega
  simp only [fixCells]
  split_ifs with he hgt
  · refine ⟨by omega, by omega, fun _ _ => he⟩
  · unfold truncateCells
    have hle := truncateCellsAux_le targetWidth cells 0 (by omega)
    have hge := truncateCellsAux_ge targetWidth cells hb 0 (by omega) (by omega)
    refine ⟨by omega, by omega, fun h1 _ => ?_⟩
    have hex := truncateCellsAux_exact targetWidth cells h1 0 (by omega) (by omega)
    omega
  · have hlt : getCellsWidth cells < targetWidth := by omega
    have hbounds := padCells_width_bounds cells targetWidth f Align.left hlt
    have hcw := getCharWidth_one_or_two f
    refine ⟨by omega, by omega, fun _ hf1 => by omega⟩

/-- Witness for `c1_fit_width`: two 1-wide cells fixed to width 4 with a
1-wide fill land exactly on 4. -/
theorem c1_fit_width_witness :
    4 ≤ getCellsWidth (fixCells [⟨"a", 1⟩, ⟨"b", 1⟩] 4 'x') + 1
    ∧ getCellsWidth (fixCells [⟨"a", 1⟩, ⟨"b", 1⟩] 4 'x') ≤ 4 + 1
    ∧ ((∀ c ∈ [Cell.mk "a" 1, Cell.mk "b" 1], c.width = 1) → getCharWidth 'x' = 1 →
        getCellsWidth (fixCells [⟨"a", 1⟩, ⟨"b", 1⟩] 4 'x') = 4) :=
  c1_fit_width [⟨"a", 1⟩, ⟨"b", 1⟩] 4 'x' (by decide)

end AliveProgress
